import Mathlib

/-
Verification development for the Tempesta DB public interface
(src/db/core/main.c).  The index internals (hash trie, bucket scan,
allocator) live outside the provided sources, so they are modelled from
the specification; every function of main.c is embedded faithfully from
its C source.  C results are modelled by `CResult`: `ok` is a non-NULL
return, `null` is a NULL return after logging an error, and `bug` marks
a BUG_ON assertion firing (the process aborts).
-/

/-- Outcome of a C function in this interface: a returned value, a NULL
return (error reported via TDB_ERR), or a BUG_ON assertion failure. -/
inductive CResult (α : Type) where
  | ok (a : α)
  | null
  | bug
deriving DecidableEq

/-- A record of the store: 64-bit key, completion and tombstone flags,
reference count, length and payload bytes (spec §3, Entities). -/
structure TdbRec where
  key : Nat
  complete : Bool
  tombstone : Bool
  refcnt : Nat
  len : Nat
  payload : List Nat
deriving DecidableEq

/-- Modelled from the spec: the mapped store.  Records are identified by
their index in `recs` (allocation order); `freeSpace` is the number of
bytes the allocator can still serve (allocation failure is a normal,
reportable condition, spec §3); `nextAddr` is the address at which the
next fragment block is carved. -/
structure DB where
  recs : List TdbRec
  freeSpace : Nat
  nextAddr : Nat
deriving DecidableEq

/-- Apply `f` to record `i`, leaving the store unchanged when `i` is not
a live record id. -/
def updateRec (db : DB) (i : Nat) (f : TdbRec → TdbRec) : DB :=
  match db.recs[i]? with
  | some r => { db with recs := db.recs.set i (f r) }
  | none => db

/-- Modelled from the spec: a record is visible to lookup iff it is
complete and not tombstoned (spec §3, Invariants). -/
def tdb_rec_visible (r : TdbRec) : Bool :=
  r.complete && !r.tombstone

/-- Modelled from the spec: the collision chain of a key, i.e. the ids of
all records carrying this key, in insertion order (spec §3: multiple
records may collide on the same key and are chained). -/
def tdb_chain (db : DB) (key : Nat) : List Nat :=
  (List.range db.recs.length).filter (fun i =>
    match db.recs[i]? with
    | some r => r.key == key
    | none => false)

/-- Modelled from the spec: the part of a collision chain that a bucket
scan may return — complete, non-tombstoned records only (spec §4.3 step
4). -/
def tdb_visible_chain (db : DB) (key : Nat) : List Nat :=
  (tdb_chain db key).filter (fun i =>
    match db.recs[i]? with
    | some r => tdb_rec_visible r
    | none => false)

/-- Modelled from the spec: trie descent for a key; returns whether a
bucket holding this key's chain exists (tdb_htrie_lookup of the missing
htrie sources returns the bucket or NULL). -/
def tdb_htrie_lookup (db : DB) (key : Nat) : Bool :=
  !(tdb_chain db key).isEmpty

/-- Modelled from the spec: the bucket scan protocol returns the first
matching record of the chain that is complete and not tombstoned
(spec §4.3, steps 4-5). -/
def tdb_htrie_bscan_for_rec (db : DB) (key : Nat) : Option Nat :=
  (tdb_visible_chain db key).head?

/-- Modelled from the spec: take a refcount increment on a record
(tdb_htrie_get_rec of the missing htrie sources). -/
def tdb_htrie_get_rec (db : DB) (i : Nat) : DB :=
  updateRec db i (fun r => { r with refcnt := r.refcnt + 1 })

/-- Modelled from the spec: release one reference of a record
(tdb_htrie_put_rec of the missing htrie sources). -/
def tdb_htrie_put_rec (db : DB) (i : Nat) : DB :=
  updateRec db i (fun r => { r with refcnt := r.refcnt - 1 })

/-- Modelled from the spec: tombstone every record of the chain matched
by the caller's equality callback.  Remove only finds visible records;
`force` additionally removes incomplete ones (main.c doc of
tdb_entry_remove, spec §4.3 Remove).  The index's owning reference is
dropped on tombstoning. -/
def tombstoneMatching {γ : Type} (recs : List TdbRec) (key : Nat)
    (eq_cb : TdbRec → γ → Bool) (c : γ) (force : Bool) : List TdbRec :=
  recs.map (fun r =>
    if r.key == key && eq_cb r c && (r.complete || force) && !r.tombstone then
      { r with tombstone := true, refcnt := r.refcnt - 1 }
    else r)

/-- Modelled from the spec: TDB_HTRIE_MINDREC, the threshold separating
small always-complete records from variable records (spec §4.1: small
records, length < threshold, are always allocated complete; two cache
lines in the reference implementation). -/
def TDB_HTRIE_MINDREC : Nat := 128

/-- Modelled from the spec: record insertion of the missing htrie
sources.  When an equality callback is given (the alloc-unique path), any
matching visible record is first tombstoned; then a block of `len` bytes
is allocated — failing with NoSpace when the allocator is exhausted — and
the new record is appended to the chain with the given completion flag.
The new record is born with two references: one for index residency and
one for the calling writer (spec §4.4). -/
def tdb_htrie_insert {γ : Type} (db : DB) (key : Nat) (data : List Nat)
    (eq_cb : Option (TdbRec → γ → Bool)) (eq_data : γ) (len : Nat)
    (complete : Bool) : Option (DB × Nat) :=
  let recs :=
    match eq_cb with
    | some eq => tombstoneMatching db.recs key eq eq_data false
    | none => db.recs
  if len ≤ db.freeSpace then
    some ({ db with
            recs := recs ++ [{ key := key, complete := complete,
                               tombstone := false, refcnt := 2, len := len,
                               payload := data }],
            freeSpace := db.freeSpace - len },
          recs.length)
  else none

/-- Lean model of tdb_entry_create (src/db/core/main.c:46): BUG_ON on a
NULL data buffer, then tdb_htrie_insert with the complete flag set; a
NULL insert result is logged and returned. -/
def tdb_entry_create (db : DB) (key : Nat) (data : Option (List Nat))
    (len : Nat) : CResult (DB × Nat) :=
  match data with
  | none => CResult.bug
  | some d =>
    match @tdb_htrie_insert Unit db key d none () len true with
    | some x => CResult.ok x
    | none => CResult.null

/-- Lean model of tdb_entry_alloc (src/db/core/main.c:102): BUG_ON when
the requested length is below TDB_HTRIE_MINDREC, then tdb_htrie_insert
with the complete flag clear; a NULL insert result is logged and
returned. -/
def tdb_entry_alloc (db : DB) (key : Nat) (len : Nat) : CResult (DB × Nat) :=
  if len < TDB_HTRIE_MINDREC then CResult.bug
  else
    match @tdb_htrie_insert Unit db key [] none () len false with
    | some x => CResult.ok x
    | none => CResult.null

/-- Lean model of tdb_entry_alloc_unique (src/db/core/main.c:75): BUG_ON
when the requested length is below TDB_HTRIE_MINDREC, then
tdb_htrie_insert with the equality callback (replacing any matching
record) and the complete flag clear. -/
def tdb_entry_alloc_unique {γ : Type} (db : DB) (key : Nat) (len : Nat)
    (eq_cb : TdbRec → γ → Bool) (eq_data : γ) : CResult (DB × Nat) :=
  if len < TDB_HTRIE_MINDREC then CResult.bug
  else
    match tdb_htrie_insert db key [] (some eq_cb) eq_data len false with
    | some x => CResult.ok x
    | none => CResult.null

/-- Modelled from the spec: mark a record complete (tdb_rec_mark_complete
of the missing htrie sources). -/
def tdb_rec_mark_complete (db : DB) (i : Nat) : DB :=
  updateRec db i (fun r => { r with complete := true })

/-- Lean model of tdb_entry_mark_complete (src/db/core/main.c:131). -/
def tdb_entry_mark_complete (db : DB) (i : Nat) : DB :=
  tdb_rec_mark_complete db i

/-- Lean model of tdb_entry_is_complete (src/db/core/main.c:120). -/
def tdb_entry_is_complete (db : DB) (i : Nat) : Bool :=
  match db.recs[i]? with
  | some r => r.complete
  | none => false

/-- Lean model of tdb_htrie_remove as used by tdb_entry_remove
(src/db/core/main.c:156); the scan itself is modelled from the spec. -/
def tdb_htrie_remove {γ : Type} (db : DB) (key : Nat)
    (eq_cb : TdbRec → γ → Bool) (c : γ) (force : Bool) : DB :=
  { db with recs := tombstoneMatching db.recs key eq_cb c force }

/-- Lean model of tdb_entry_remove (src/db/core/main.c:156). -/
def tdb_entry_remove {γ : Type} (db : DB) (key : Nat)
    (eq_cb : TdbRec → γ → Bool) (c : γ) (force : Bool) : DB :=
  tdb_htrie_remove db key eq_cb c force

/-- Modelled from the spec: a walk visits every complete, non-tombstoned
record (spec §4.6). -/
def tdb_htrie_walk (db : DB) : List Nat :=
  (List.range db.recs.length).filter (fun i =>
    match db.recs[i]? with
    | some r => tdb_rec_visible r
    | none => false)

/-- Lean model of tdb_entry_walk (src/db/core/main.c:363): the ids the
visitor is invoked on. -/
def tdb_entry_walk (db : DB) : List Nat :=
  tdb_htrie_walk db

/-- Iterator returned by tdb_rec_get: the current record (NULL when
absent) and whether a bucket was found. -/
structure TdbIter where
  recId : Option Nat
  bckt : Bool
deriving DecidableEq

/-- Lean model of tdb_rec_get (src/db/core/main.c:191): trie lookup for
the bucket, then the bucket scan; the returned record carries a refcount
increment taken for the caller. -/
def tdb_rec_get (db : DB) (key : Nat) : DB × TdbIter :=
  if tdb_htrie_lookup db key then
    match tdb_htrie_bscan_for_rec db key with
    | some i => (tdb_htrie_get_rec db i, { recId := some i, bckt := true })
    | none => (db, { recId := none, bckt := true })
  else (db, { recId := none, bckt := false })

/-- Lean model of tdb_rec_put (src/db/core/main.c:223). -/
def tdb_rec_put (db : DB) (i : Nat) : DB :=
  tdb_htrie_put_rec db i

/-- Lean model of tdb_rec_keep (src/db/core/main.c:231). -/
def tdb_rec_keep (db : DB) (i : Nat) : DB :=
  tdb_htrie_get_rec db i

/-- A lock of the store: the per-table get-alloc spinlock `ga_lock`
(a field of the TDB handle, src/db/core/main.c:332), or the per-bucket
spinlock of the bucket holding a key's chain (spec §4.3). -/
inductive LockId where
  | ga
  | bucket (b : Nat)
deriving DecidableEq

/-- A lock acquisition or release event. -/
inductive LockEv where
  | acquire (l : LockId)
  | release (l : LockId)
deriving DecidableEq

/-- The get-or-allocate context of tdb_rec_get_alloc: equality callback,
optional precreate veto callback, initializer, opaque context, requested
length and the is_new out-flag. -/
structure TdbGetAllocCtx (γ : Type) where
  eq_rec : TdbRec → γ → Bool
  precreate_rec : Option (γ → Bool)
  init_rec : TdbRec → γ → List Nat
  ctx : γ
  len : Nat
  is_new : Bool

/-- The result of tdb_rec_get_alloc: the store after the call, the
returned record id (or NULL / BUG_ON), the context as left by the call
(its is_new flag in particular), and the trace of lock events the call
performed. -/
structure GAOut (γ : Type) where
  db : DB
  res : CResult Nat
  ctx : TdbGetAllocCtx γ
  locks : List LockEv

/-- The scan loop of tdb_rec_get_alloc (src/db/core/main.c:336): iterate
the visible chain with tdb_rec_get / tdb_rec_next and stop at the first
record accepted by the equality callback.  The iterator's transient
refcount get/put on skipped records cancels out and is elided. -/
def gaLoopFind {γ : Type} (db : DB) (eq_rec : TdbRec → γ → Bool) (c : γ) :
    List Nat → Option Nat
  | [] => none
  | i :: rest =>
    match db.recs[i]? with
    | some r => if eq_rec r c then some i else gaLoopFind db eq_rec c rest
    | none => gaLoopFind db eq_rec c rest

/-- The precreate veto of tdb_rec_get_alloc
(`ctx->precreate_rec && ctx->precreate_rec(ctx->ctx)`): the callback's
verdict when it is given, no veto when it is absent. -/
def gaVeto {γ : Type} (ctx : TdbGetAllocCtx γ) : Bool :=
  match ctx.precreate_rec with
  | some f => f ctx.ctx
  | none => false

/-- Lean model of tdb_rec_get_alloc (src/db/core/main.c:326): take the
per-table ga_lock, clear is_new, scan the chain for a record accepted by
the equality callback (returning it with a refcount increment); on no
match consult the precreate callback (a veto returns NULL), set is_new,
allocate an incomplete record via tdb_entry_alloc (whose BUG_ON fires
while the lock is held), run the initializer, mark the record complete,
and release the lock.  The is_new write happens before the scan; since
it does not feed the scan, the flag reset is applied on the outputs. -/
def tdb_rec_get_alloc {γ : Type} (db : DB) (key : Nat)
    (ctx0 : TdbGetAllocCtx γ) : GAOut γ :=
  match gaLoopFind db ctx0.eq_rec ctx0.ctx (tdb_visible_chain db key) with
  | some i =>
    { db := tdb_htrie_get_rec db i, res := CResult.ok i,
      ctx := { ctx0 with is_new := false },
      locks := [LockEv.acquire LockId.ga, LockEv.release LockId.ga] }
  | none =>
    if gaVeto ctx0 then
      { db := db, res := CResult.null, ctx := { ctx0 with is_new := false },
        locks := [LockEv.acquire LockId.ga, LockEv.release LockId.ga] }
    else
      match tdb_entry_alloc db key ctx0.len with
      | CResult.bug =>
        { db := db, res := CResult.bug, ctx := { ctx0 with is_new := true },
          locks := [LockEv.acquire LockId.ga] }
      | CResult.null =>
        { db := db, res := CResult.null, ctx := { ctx0 with is_new := true },
          locks := [LockEv.acquire LockId.ga, LockEv.release LockId.ga] }
      | CResult.ok (db1, i) =>
        { db := tdb_entry_mark_complete
                  (updateRec db1 i
                    (fun r => { r with payload := ctx0.init_rec r ctx0.ctx })) i,
          res := CResult.ok i, ctx := { ctx0 with is_new := true },
          locks := [LockEv.acquire LockId.ga, LockEv.release LockId.ga] }

/-- 2^64, the modulus of size_t / unsigned pointer arithmetic. -/
def U64 : Nat := 2 ^ 64

/-- C unsigned 64-bit subtraction `a - b` for a b < 2^64: the signed
pointer difference converted to size_t by the usual arithmetic
conversions in a mixed comparison. -/
def c_sub_u64 (a b : Nat) : Nat :=
  (a + U64 - b) % U64

/-- A variable record fragment as seen by tdb_entry_get_room: the address
of its data area and its current length field. -/
structure TdbVRec where
  dataOff : Nat
  len : Nat
deriving DecidableEq

/-- Modelled from the spec: tdb_htrie_extend_rec appends a new data
fragment to a variable record (spec §4.2, Extend-record), allocating a
fragment block from the allocator; allocation failure (NoSpace) returns
NULL. -/
def tdb_htrie_extend_rec (db : DB) (r : TdbVRec) (size : Nat) :
    Option (DB × TdbVRec) :=
  if size ≤ db.freeSpace then
    some ({ db with
            freeSpace := db.freeSpace - size,
            nextAddr := db.nextAddr + size },
          { dataOff := db.nextAddr, len := size })
  else none

/-- Lean model of tdb_entry_add (src/db/core/main.c:144). -/
def tdb_entry_add (db : DB) (r : TdbVRec) (size : Nat) :
    Option (DB × TdbVRec) :=
  tdb_htrie_extend_rec db r size

/-- The outcome of tdb_entry_get_room: the store, the state in mapped
memory of the record object that was passed in (`recMem`), the caller's
record pointer after the call (`rptr`, NULL on failed extension), and
the returned data pointer (`ret`, NULL on failure). -/
structure GetRoomOut where
  db : DB
  recMem : TdbVRec
  rptr : Option TdbVRec
  ret : Option Nat
deriving DecidableEq

/-- Lean model of tdb_entry_get_room (src/db/core/main.c:169): if the
fragment has at least tail_len bytes after the cursor — the comparison
`data + len - curr_ptr >= tail_len` is performed on the pointer
difference converted to unsigned — return the cursor; otherwise truncate
the fragment's length to the written cursor (chop tail) and extend the
record, returning the new fragment's data pointer or NULL. -/
def tdb_entry_get_room (db : DB) (r : TdbVRec)
    (curr_ptr tail_len tot_size : Nat) : GetRoomOut :=
  if tail_len ≤ c_sub_u64 (r.dataOff + r.len) curr_ptr then
    { db := db, recMem := r, rptr := some r, ret := some curr_ptr }
  else
    match tdb_htrie_extend_rec db
        { r with len := c_sub_u64 curr_ptr r.dataOff } tot_size with
    | some (db2, r2) =>
      { db := db2, recMem := { r with len := c_sub_u64 curr_ptr r.dataOff },
        rptr := some r2, ret := some r2.dataOff }
    | none =>
      { db := db, recMem := { r with len := c_sub_u64 curr_ptr r.dataOff },
        rptr := none, ret := none }

/-- The table file suffix ".tdb" (TDB_SUFFIX; sizeof(TDB_SUFFIX) = 5
with the terminating NUL). -/
def TDB_SUFFIX : List Char := ['.', 't', 'd', 'b']

/-- Index of the last occurrence of '/' in the path (strrchr). -/
def lastSlash (s : List Char) : Option Nat :=
  ((List.range s.length).filter (fun i => s[i]? == some '/')).getLast?

/-- Decimal rendering of an int as printed by the %d conversion. -/
def decimalDigits (n : Int) : List Char :=
  if n < 0 then '-' :: Nat.toDigits 10 (-n).toNat
  else Nat.toDigits 10 n.toNat

/-- Result of tdb_get_db: the handle's table name and file path on
success, a NULL handle, or a BUG_ON assertion failure. -/
inductive GetDbRes where
  | ok (tbl_name : List Char) (db_path : List Char)
  | null
  | bug
deriving DecidableEq

/-- Lean model of tdb_get_db (src/db/core/main.c:263), parametrized by
the name and path buffer sizes TDB_TBLNAME_LEN and TDB_PATH_LEN whose
values live in a header outside the provided sources: BUG_ON(node > 9);
reject a path whose last four characters are not ".tdb"; reject a path
without a '/' (the absolute-path check); BUG_ON a negative name length;
reject a name that cannot fit <name><numa_id>.tdb in the name buffer;
otherwise build the handle's table name `<name><node>.tdb` and file path
(the original path with its suffix replaced by `<node>.tdb`), both
truncated to their buffers as snprintf does.  The registry lookup and
the handle allocation are external and assumed to succeed. -/
def tdb_get_db (tblNameLen pathLen : Nat) (path : List Char) (node : Int) :
    GetDbRes :=
  if 9 < node then GetDbRes.bug
  else if path.drop (path.length - 4) ≠ TDB_SUFFIX then GetDbRes.null
  else
    match lastSlash path with
    | none => GetDbRes.null
    | some slashIdx =>
      if (path.length : Int) - slashIdx - 5 < 0 then GetDbRes.bug
      else if tblNameLen ≤ ((path.length : Int) - slashIdx - 5).toNat + 5 then
        GetDbRes.null
      else
        GetDbRes.ok
          (((path.drop (slashIdx + 1)).take
              ((path.length : Int) - slashIdx - 5).toNat ++
            decimalDigits node ++ TDB_SUFFIX).take (tblNameLen - 1))
          ((path.take (path.length - 4) ++ decimalDigits node ++
            TDB_SUFFIX).take (pathLen - 1))

/-- Modelled from the spec: TDB_EXT_SZ, the extent size — the unit of
file growth, a power of two, 2 MiB in the reference configuration
(spec §2); TDB_EXT_MASK is its complement mask, so
`fsize & ~TDB_EXT_MASK` is `fsize &&& (TDB_EXT_SZ - 1)`. -/
def TDB_EXT_SZ : Nat := 2 ^ 21

/-- External steps tdb_open performs after validation: opening and
mapping the backing file, and initializing the htrie header in the
mapping. -/
inductive OpenEffect where
  | file_open
  | htrie_init
deriving DecidableEq

/-- The outcome of tdb_open: the returned handle (reusing GetDbRes) and
the file/mapping effects performed. -/
structure OpenOut where
  res : GetDbRes
  effects : List OpenEffect
deriving DecidableEq

/-- Lean model of tdb_open (src/db/core/main.c:376), with the outcomes
of the external file open and htrie init passed as oracles: reject a
file size that is not a whole multiple of the extent size or is smaller
than one extent before doing anything else; then get the handle, open
and map the file, and initialize the htrie header, failing to NULL on
either external failure. -/
def tdb_open (tblNameLen pathLen : Nat) (path : List Char) (fsize : Nat)
    (rec_size : Nat) (node : Int) (fileOpenOk htrieInitOk : Bool) : OpenOut :=
  if fsize &&& (TDB_EXT_SZ - 1) ≠ 0 ∨ fsize < TDB_EXT_SZ then
    { res := GetDbRes.null, effects := [] }
  else
    match tdb_get_db tblNameLen pathLen path node with
    | GetDbRes.bug => { res := GetDbRes.bug, effects := [] }
    | GetDbRes.null => { res := GetDbRes.null, effects := [] }
    | GetDbRes.ok tn dp =>
      if !fileOpenOk then
        { res := GetDbRes.null, effects := [OpenEffect.file_open] }
      else if !htrieInitOk then
        { res := GetDbRes.null,
          effects := [OpenEffect.file_open, OpenEffect.htrie_init] }
      else
        { res := GetDbRes.ok tn dp,
          effects := [OpenEffect.file_open, OpenEffect.htrie_init] }

/-- The record tdb_entry_alloc appends: incomplete, untombstoned, with
the writer's and the index's references, and no payload written yet. -/
def gaNewRec (key len : Nat) : TdbRec :=
  { key := key, complete := false, tombstone := false, refcnt := 2,
    len := len, payload := [] }

/-- The record tdb_rec_get_alloc leaves in the store on its allocation
path: the fresh record whose payload the initializer callback wrote,
then marked complete. -/
def gaFinalRec {γ : Type} (ctx : TdbGetAllocCtx γ) (key : Nat) : TdbRec :=
  { gaNewRec key ctx.len with
    payload := ctx.init_rec (gaNewRec key ctx.len) ctx.ctx,
    complete := true }

/-- The store tdb_rec_get_alloc leaves behind on its allocation path:
the final record appended, the requested length consumed. -/
abbrev gaFreshDB {γ : Type} (db : DB) (key : Nat)
    (ctx0 : TdbGetAllocCtx γ) : DB :=
  { recs := db.recs ++ [gaFinalRec ctx0 key],
    freeSpace := db.freeSpace - ctx0.len,
    nextAddr := db.nextAddr }

/-- A fresh empty store with ample allocator space, used to evaluate the
theorems on concrete inputs. -/
def dbEmpty : DB := { recs := [], freeSpace := 1000000, nextAddr := 0 }

/-- A complete, visible record under key 5. -/
def recW : TdbRec :=
  { key := 5, complete := true, tombstone := false, refcnt := 1, len := 16,
    payload := [7] }

/-- An incomplete record under key 5. -/
def recInc : TdbRec :=
  { key := 5, complete := false, tombstone := false, refcnt := 1, len := 256,
    payload := [] }

/-- A store holding one visible and one incomplete record under key 5. -/
def dbW : DB := { recs := [recW, recInc], freeSpace := 1000000, nextAddr := 0 }

/-- A store whose allocator is exhausted. -/
def dbFull : DB := { recs := [], freeSpace := 0, nextAddr := 0 }

/-- A get-alloc context whose equality callback accepts key-5 records. -/
def ctxMatch : TdbGetAllocCtx Unit :=
  { eq_rec := fun r _ => r.key == 5, precreate_rec := none,
    init_rec := fun _ _ => [9], ctx := (), len := 256, is_new := true }

/-- A get-alloc context whose equality callback rejects everything. -/
def ctxNoMatch : TdbGetAllocCtx Unit :=
  { eq_rec := fun _ _ => false, precreate_rec := none,
    init_rec := fun _ _ => [9], ctx := (), len := 256, is_new := false }

/-- A get-alloc context whose precreate callback vetoes allocation. -/
def ctxVeto : TdbGetAllocCtx Unit :=
  { eq_rec := fun _ _ => false, precreate_rec := some (fun _ => true),
    init_rec := fun _ _ => [9], ctx := (), len := 256, is_new := true }

/-- Membership in a collision chain names exactly the records carrying
the key. -/
theorem mem_tdb_chain {db : DB} {key i : Nat} :
    i ∈ tdb_chain db key ↔ ∃ r, db.recs[i]? = some r ∧ r.key = key := by
  unfold tdb_chain
  rw [List.mem_filter, List.mem_range]
  constructor
  · rintro ⟨hi, hp⟩
    cases h : db.recs[i]? with
    | none => rw [h] at hp; simp at hp
    | some r =>
      rw [h] at hp
      exact ⟨r, rfl, by simpa using hp⟩
  · rintro ⟨r, hr, hk⟩
    obtain ⟨hlt, -⟩ := List.getElem?_eq_some.mp hr
    exact ⟨hlt, by rw [hr]; simpa using hk⟩

/-- Membership in a visible chain names exactly the complete,
non-tombstoned records carrying the key. -/
theorem mem_tdb_visible_chain {db : DB} {key i : Nat} :
    i ∈ tdb_visible_chain db key ↔
      ∃ r, db.recs[i]? = some r ∧ r.key = key ∧ tdb_rec_visible r = true := by
  unfold tdb_visible_chain
  rw [List.mem_filter, mem_tdb_chain]
  constructor
  · rintro ⟨⟨r, hr, hk⟩, hp⟩
    rw [hr] at hp
    exact ⟨r, hr, hk, hp⟩
  · rintro ⟨r, hr, hk, hv⟩
    exact ⟨⟨r, hr, hk⟩, by rw [hr]; exact hv⟩

/-- updateRec at the updated id. -/
theorem updateRec_getElem_self {db : DB} {i : Nat} {f : TdbRec → TdbRec} :
    (updateRec db i f).recs[i]? = (db.recs[i]?).map f := by
  unfold updateRec
  cases h : db.recs[i]? with
  | none => simp [h]
  | some r =>
    obtain ⟨hlt, -⟩ := List.getElem?_eq_some.mp h
    simp [h, List.getElem?_set_self, hlt]

/-- updateRec keeps every other record unchanged. -/
theorem updateRec_getElem_ne {db : DB} {i j : Nat} {f : TdbRec → TdbRec}
    (hij : i ≠ j) : (updateRec db i f).recs[j]? = db.recs[j]? := by
  unfold updateRec
  cases h : db.recs[i]? with
  | none => simp
  | some r => simp [List.getElem?_set_ne hij]

/-- updateRec does not change the number of records. -/
theorem updateRec_length {db : DB} {i : Nat} {f : TdbRec → TdbRec} :
    (updateRec db i f).recs.length = db.recs.length := by
  unfold updateRec
  cases h : db.recs[i]? <;> simp

/-- Unfolding equation of the get-alloc scan on a non-empty candidate
list. -/
theorem gaLoopFind_cons {γ : Type} (db : DB) (eq_rec : TdbRec → γ → Bool)
    (c : γ) (i : Nat) (rest : List Nat) :
    gaLoopFind db eq_rec c (i :: rest) =
      (match db.recs[i]? with
       | some r => if eq_rec r c then some i else gaLoopFind db eq_rec c rest
       | none => gaLoopFind db eq_rec c rest) := rfl

/-- The get-alloc scan finds nothing iff no record of the candidate list
is accepted by the equality callback. -/
theorem gaLoopFind_eq_none_iff {γ : Type} {db : DB}
    {eq_rec : TdbRec → γ → Bool} {c : γ} {l : List Nat} :
    gaLoopFind db eq_rec c l = none ↔
      ∀ i ∈ l, ∀ r, db.recs[i]? = some r → eq_rec r c = false := by
  induction l with
  | nil => simp [gaLoopFind]
  | cons i rest ih =>
    cases hcase : db.recs[i]? with
    | none =>
      simp only [gaLoopFind_cons, hcase]
      rw [ih]
      constructor
      · intro h j hj r hr
        rcases List.mem_cons.mp hj with rfl | hjr
        · rw [hcase] at hr; cases hr
        · exact h j hjr r hr
      · intro h j hj r hr
        exact h j (List.mem_cons_of_mem i hj) r hr
    | some ri =>
      simp only [gaLoopFind_cons, hcase]
      by_cases heq : eq_rec ri c
      · rw [if_pos heq]
        constructor
        · intro h; cases h
        · intro h
          have := h i (List.mem_cons_self i rest) ri hcase
          rw [heq] at this
          cases this
      · rw [if_neg heq, ih]
        constructor
        · intro h j hj r hr
          rcases List.mem_cons.mp hj with rfl | hjr
          · rw [hcase] at hr
            obtain rfl : ri = r := by injection hr
            exact Bool.eq_false_iff.mpr heq
          · exact h j hjr r hr
        · intro h j hj r hr
          exact h j (List.mem_cons_of_mem i hj) r hr

/-- A successful get-alloc scan returns a candidate accepted by the
equality callback. -/
theorem gaLoopFind_eq_some {γ : Type} {db : DB}
    {eq_rec : TdbRec → γ → Bool} {c : γ} {l : List Nat} {i : Nat}
    (h : gaLoopFind db eq_rec c l = some i) :
    i ∈ l ∧ ∃ r, db.recs[i]? = some r ∧ eq_rec r c = true := by
  induction l with
  | nil => simp [gaLoopFind] at h
  | cons j rest ih =>
    cases hcase : db.recs[j]? with
    | none =>
      simp only [gaLoopFind_cons, hcase] at h
      obtain ⟨hm, hr⟩ := ih h
      exact ⟨List.mem_cons_of_mem j hm, hr⟩
    | some rj =>
      simp only [gaLoopFind_cons, hcase] at h
      by_cases heq : eq_rec rj c
      · rw [if_pos heq] at h
        obtain rfl : j = i := by injection h
        exact ⟨List.mem_cons_self j rest, rj, hcase, heq⟩
      · rw [if_neg heq] at h
        obtain ⟨hm, hr⟩ := ih h
        exact ⟨List.mem_cons_of_mem j hm, hr⟩

/-- The get-alloc scan over a concatenation scans the left part first. -/
theorem gaLoopFind_append {γ : Type} {db : DB}
    {eq_rec : TdbRec → γ → Bool} {c : γ} {l1 l2 : List Nat} :
    gaLoopFind db eq_rec c (l1 ++ l2) =
      (gaLoopFind db eq_rec c l1).or (gaLoopFind db eq_rec c l2) := by
  induction l1 with
  | nil => simp [gaLoopFind]
  | cons i rest ih =>
    rw [List.cons_append]
    cases hcase : db.recs[i]? with
    | none =>
      simp only [gaLoopFind_cons, hcase]
      exact ih
    | some r =>
      simp only [gaLoopFind_cons, hcase]
      by_cases heq : eq_rec r c
      · rw [if_pos heq, if_pos heq]; rfl
      · rw [if_neg heq, if_neg heq]; exact ih

/-- The get-alloc scan only looks at the records of its candidate list. -/
theorem gaLoopFind_congr {γ : Type} {db db2 : DB}
    {eq_rec : TdbRec → γ → Bool} {c : γ} {l : List Nat}
    (h : ∀ i ∈ l, db2.recs[i]? = db.recs[i]?) :
    gaLoopFind db2 eq_rec c l = gaLoopFind db eq_rec c l := by
  induction l with
  | nil => rfl
  | cons i rest ih =>
    have hrest : ∀ j ∈ rest, db2.recs[j]? = db.recs[j]? :=
      fun j hj => h j (List.mem_cons_of_mem i hj)
    cases hcase : db.recs[i]? with
    | none =>
      simp only [gaLoopFind_cons, h i (List.mem_cons_self i rest), hcase]
      exact ih hrest
    | some r =>
      simp only [gaLoopFind_cons, h i (List.mem_cons_self i rest), hcase]
      by_cases heq : eq_rec r c
      · rw [if_pos heq, if_pos heq]
      · rw [if_neg heq, if_neg heq]; exact ih hrest

/-- Setting the appended last element of a list. -/
theorem set_append_length {α : Type} (l : List α) (a b : α) :
    (l ++ [a]).set l.length b = l ++ [b] := by
  induction l with
  | nil => rfl
  | cons x xs ih => simp [List.set, ih]

/-- tdb_rec_get_alloc on the found path: the matching record is returned
with a refcount increment and a cleared is_new flag. -/
theorem ga_found_eq {γ : Type} {db : DB} {key : Nat}
    {ctx0 : TdbGetAllocCtx γ} {i : Nat}
    (hfind : gaLoopFind db ctx0.eq_rec ctx0.ctx (tdb_visible_chain db key) =
      some i) :
    tdb_rec_get_alloc db key ctx0 =
      { db := tdb_htrie_get_rec db i, res := CResult.ok i,
        ctx := { ctx0 with is_new := false },
        locks := [LockEv.acquire LockId.ga, LockEv.release LockId.ga] } := by
  unfold tdb_rec_get_alloc
  rw [hfind]

/-- tdb_rec_get_alloc on the veto path: NULL with a cleared is_new
flag. -/
theorem ga_veto_eq {γ : Type} {db : DB} {key : Nat} {ctx0 : TdbGetAllocCtx γ}
    (hfind : gaLoopFind db ctx0.eq_rec ctx0.ctx (tdb_visible_chain db key) =
      none)
    (hveto : gaVeto ctx0 = true) :
    tdb_rec_get_alloc db key ctx0 =
      { db := db, res := CResult.null, ctx := { ctx0 with is_new := false },
        locks := [LockEv.acquire LockId.ga, LockEv.release LockId.ga] } := by
  unfold tdb_rec_get_alloc
  rw [hfind]
  simp only [hveto, if_true]

/-- tdb_entry_alloc on the success path. -/
theorem entry_alloc_ok_eq {db : DB} {key len : Nat}
    (hlen : TDB_HTRIE_MINDREC ≤ len) (hspace : len ≤ db.freeSpace) :
    tdb_entry_alloc db key len =
      CResult.ok ({ recs := db.recs ++ [gaNewRec key len],
                    freeSpace := db.freeSpace - len,
                    nextAddr := db.nextAddr }, db.recs.length) := by
  unfold tdb_entry_alloc tdb_htrie_insert
  rw [if_neg (by omega)]
  simp only [if_pos hspace]
  rfl

/-- tdb_entry_alloc fails with NULL when the allocator is exhausted. -/
theorem entry_alloc_null_eq {db : DB} {key len : Nat}
    (hlen : TDB_HTRIE_MINDREC ≤ len) (hspace : db.freeSpace < len) :
    tdb_entry_alloc db key len = CResult.null := by
  unfold tdb_entry_alloc tdb_htrie_insert
  rw [if_neg (by omega)]
  simp only [if_neg (by omega : ¬ len ≤ db.freeSpace)]

/-- tdb_rec_get_alloc on the allocation-failure path: NULL with the
is_new flag left set. -/
theorem ga_alloc_fail_eq {γ : Type} {db : DB} {key : Nat}
    {ctx0 : TdbGetAllocCtx γ}
    (hfind : gaLoopFind db ctx0.eq_rec ctx0.ctx (tdb_visible_chain db key) =
      none)
    (hveto : gaVeto ctx0 = false)
    (hlen : TDB_HTRIE_MINDREC ≤ ctx0.len)
    (hspace : db.freeSpace < ctx0.len) :
    tdb_rec_get_alloc db key ctx0 =
      { db := db, res := CResult.null, ctx := { ctx0 with is_new := true },
        locks := [LockEv.acquire LockId.ga, LockEv.release LockId.ga] } := by
  unfold tdb_rec_get_alloc
  rw [hfind]
  simp only [hveto, Bool.false_eq_true, if_false,
    entry_alloc_null_eq hlen hspace]

/-- tdb_rec_get_alloc on the allocation path: the fresh record is
initialized, marked complete and appended; the record id is returned
with the is_new flag set. -/
theorem ga_fresh_eq {γ : Type} {db : DB} {key : Nat} {ctx0 : TdbGetAllocCtx γ}
    (hfind : gaLoopFind db ctx0.eq_rec ctx0.ctx (tdb_visible_chain db key) =
      none)
    (hveto : gaVeto ctx0 = false)
    (hlen : TDB_HTRIE_MINDREC ≤ ctx0.len)
    (hspace : ctx0.len ≤ db.freeSpace) :
    tdb_rec_get_alloc db key ctx0 =
      { db := gaFreshDB db key ctx0,
        res := CResult.ok db.recs.length,
        ctx := { ctx0 with is_new := true },
        locks := [LockEv.acquire LockId.ga, LockEv.release LockId.ga] } := by
  unfold tdb_rec_get_alloc
  rw [hfind]
  simp only [hveto, Bool.false_eq_true, if_false, entry_alloc_ok_eq hlen hspace]
  have hmid : updateRec
      ({ recs := db.recs ++ [gaNewRec key ctx0.len],
         freeSpace := db.freeSpace - ctx0.len,
         nextAddr := db.nextAddr } : DB) db.recs.length
      (fun r => { r with payload := ctx0.init_rec r ctx0.ctx }) =
      { recs := db.recs ++
          [{ gaNewRec key ctx0.len with
             payload := ctx0.init_rec (gaNewRec key ctx0.len) ctx0.ctx }],
        freeSpace := db.freeSpace - ctx0.len,
        nextAddr := db.nextAddr } := by
    unfold updateRec
    simp only [List.getElem?_concat_length, set_append_length]
  rw [hmid]
  have hfin : tdb_entry_mark_complete
      ({ recs := db.recs ++
           [{ gaNewRec key ctx0.len with
              payload := ctx0.init_rec (gaNewRec key ctx0.len) ctx0.ctx }],
         freeSpace := db.freeSpace - ctx0.len,
         nextAddr := db.nextAddr } : DB) db.recs.length =
      { recs := db.recs ++ [gaFinalRec ctx0 key],
        freeSpace := db.freeSpace - ctx0.len,
        nextAddr := db.nextAddr } := by
    unfold tdb_entry_mark_complete tdb_rec_mark_complete updateRec
    simp only [List.getElem?_concat_length, set_append_length]
    rfl
  rw [hfin]

/-- Appending a record carrying the key extends its collision chain by
the new record's id. -/
theorem tdb_chain_append {db db2 : DB} {r : TdbRec} {key : Nat}
    (h2 : db2.recs = db.recs ++ [r]) (hk : r.key = key) :
    tdb_chain db2 key = tdb_chain db key ++ [db.recs.length] := by
  unfold tdb_chain
  rw [h2, List.length_append]
  have hone : db.recs.length + [r].length = db.recs.length + 1 := by simp
  rw [hone, ← Nat.succ_eq_add_one, List.range_succ, List.filter_append]
  congr 1
  · apply List.filter_congr
    intro i hi
    rw [List.mem_range] at hi
    rw [List.getElem?_append_left hi]
  · simp [List.getElem?_concat_length, hk]

/-- Appending a visible record carrying the key extends its visible
chain by the new record's id. -/
theorem tdb_visible_chain_append {db db2 : DB} {r : TdbRec} {key : Nat}
    (h2 : db2.recs = db.recs ++ [r]) (hk : r.key = key)
    (hv : tdb_rec_visible r = true) :
    tdb_visible_chain db2 key = tdb_visible_chain db key ++ [db.recs.length] := by
  unfold tdb_visible_chain
  rw [tdb_chain_append h2 hk, List.filter_append]
  congr 1
  · apply List.filter_congr
    intro i hi
    obtain ⟨rr, hrr, -⟩ := mem_tdb_chain.mp hi
    have hlt : i < db.recs.length := (List.getElem?_eq_some.mp hrr).1
    rw [h2, List.getElem?_append_left hlt]
  · simp [h2, List.getElem?_concat_length, hv]

/-- C unsigned subtraction agrees with Nat subtraction when the minuend
dominates and fits in 64 bits. -/
theorem c_sub_u64_of_le {a b : Nat} (hba : b ≤ a) (ha : a < U64) :
    c_sub_u64 a b = a - b := by
  unfold c_sub_u64
  have h1 : a + U64 - b = (a - b) + U64 := by omega
  rw [h1, Nat.add_mod_right, Nat.mod_eq_of_lt (by omega)]

/-- The extent-size mask check of tdb_open computes the remainder modulo
the extent size. -/
theorem ext_mask_eq_mod (n : Nat) : n &&& (TDB_EXT_SZ - 1) = n % TDB_EXT_SZ :=
  Nat.and_pow_two_sub_one_eq_mod n 21

/-- Claim C3: for every variable record, current write cursor, and
requested tail length: if the current fragment has at least tail_len
bytes of room left after the cursor, tdb_entry_get_room returns the
cursor itself and leaves the record unchanged; otherwise it first
truncates the fragment's length to the currently written cursor (chop
tail) and then extends the record, returning the new fragment's data
pointer, or NULL if extension fails. -/
theorem c3_entry_get_room_chop_tail (db : DB) (r : TdbVRec)
    (curr_ptr tail_len tot_size : Nat)
    (hlo : r.dataOff ≤ curr_ptr) (hhi : curr_ptr ≤ r.dataOff + r.len)
    (hbound : r.dataOff + r.len < U64) :
    (tail_len ≤ r.dataOff + r.len - curr_ptr →
      tdb_entry_get_room db r curr_ptr tail_len tot_size =
        { db := db, recMem := r, rptr := some r, ret := some curr_ptr }) ∧
    (r.dataOff + r.len - curr_ptr < tail_len →
      (tdb_entry_get_room db r curr_ptr tail_len tot_size).recMem =
        { dataOff := r.dataOff, len := curr_ptr - r.dataOff } ∧
      (∀ db2 r2,
        tdb_htrie_extend_rec db
            { dataOff := r.dataOff, len := curr_ptr - r.dataOff } tot_size =
          some (db2, r2) →
        tdb_entry_get_room db r curr_ptr tail_len tot_size =
          { db := db2,
            recMem := { dataOff := r.dataOff, len := curr_ptr - r.dataOff },
            rptr := some r2, ret := some r2.dataOff }) ∧
      (tdb_htrie_extend_rec db
          { dataOff := r.dataOff, len := curr_ptr - r.dataOff } tot_size =
        none →
        tdb_entry_get_room db r curr_ptr tail_len tot_size =
          { db := db,
            recMem := { dataOff := r.dataOff, len := curr_ptr - r.dataOff },
            rptr := none, ret := none })) := by
  have hsub1 : c_sub_u64 (r.dataOff + r.len) curr_ptr =
      r.dataOff + r.len - curr_ptr := c_sub_u64_of_le hhi hbound
  have hsub2 : c_sub_u64 curr_ptr r.dataOff = curr_ptr - r.dataOff :=
    c_sub_u64_of_le hlo (lt_of_le_of_lt hhi hbound)
  have hr1 : ({ r with len := c_sub_u64 curr_ptr r.dataOff } : TdbVRec) =
      { dataOff := r.dataOff, len := curr_ptr - r.dataOff } := by
    rw [hsub2]
  constructor
  · intro hroom
    unfold tdb_entry_get_room
    rw [hsub1, if_pos hroom]
  · intro htight
    have hcond : ¬ tail_len ≤ c_sub_u64 (r.dataOff + r.len) curr_ptr := by
      rw [hsub1]; omega
    refine ⟨?_, ?_, ?_⟩
    · unfold tdb_entry_get_room
      rw [if_neg hcond, hr1]
      cases hx : tdb_htrie_extend_rec db
          { dataOff := r.dataOff, len := curr_ptr - r.dataOff } tot_size with
      | none => rfl
      | some p =>
        cases p with
        | mk db2 r2 => rfl
    · intro db2 r2 hx
      unfold tdb_entry_get_room
      rw [if_neg hcond, hr1, hx]
    · intro hx
      unfold tdb_entry_get_room
      rw [if_neg hcond, hr1, hx]

/-- Witness for C3: a fragment of 10 bytes at address 0 with the cursor
at 5 has room for a 3-byte tail, and the cursor is returned. -/
theorem c3_witness :
    (0 : Nat) ≤ 5 ∧ (5 : Nat) ≤ 0 + 10 ∧ (0 + 10 : Nat) < U64 ∧
    (3 ≤ 0 + 10 - 5 →
      tdb_entry_get_room dbEmpty { dataOff := 0, len := 10 } 5 3 100 =
        { db := dbEmpty, recMem := { dataOff := 0, len := 10 },
          rptr := some { dataOff := 0, len := 10 }, ret := some 5 }) :=
  ⟨by decide, by decide, by norm_num [U64],
   (c3_entry_get_room_chop_tail dbEmpty { dataOff := 0, len := 10 } 5 3 100
      (by decide) (by decide) (by norm_num [U64])).1⟩

/-- Claim C8: tdb_open returns a null handle whenever the requested file
size is not a whole multiple of the extent size or is smaller than one
extent, before any file or mapping state is created. -/
theorem c8_open_size_check (tblNameLen pathLen : Nat) (path : List Char)
    (fsize rec_size : Nat) (node : Int) (fOk hOk : Bool)
    (hbad : fsize % TDB_EXT_SZ ≠ 0 ∨ fsize < TDB_EXT_SZ) :
    tdb_open tblNameLen pathLen path fsize rec_size node fOk hOk =
      { res := GetDbRes.null, effects := [] } := by
  have hcond : fsize &&& (TDB_EXT_SZ - 1) ≠ 0 ∨ fsize < TDB_EXT_SZ := by
    rw [ext_mask_eq_mod]
    exact hbad
  unfold tdb_open
  rw [if_pos hcond]

/-- Witness for C8: opening with a 100-byte file is rejected with no
effects. -/
theorem c8_witness :
    ((100 : Nat) % TDB_EXT_SZ ≠ 0 ∨ (100 : Nat) < TDB_EXT_SZ) ∧
    tdb_open 20 100 ['/', 'b', '.', 't', 'd', 'b'] 100 64 0 true true =
      { res := GetDbRes.null, effects := [] } :=
  ⟨by decide,
   c8_open_size_check 20 100 ['/', 'b', '.', 't', 'd', 'b'] 100 64 0 true true
     (by decide)⟩

/-- Claim C9: the node id passed to tdb_open must be a single decimal
digit: for every node greater than 9 the open path asserts (BUG_ON)
instead of returning an error. -/
theorem c9_node_digit_bug_on (tblNameLen pathLen : Nat) (path : List Char)
    (fsize rec_size : Nat) (node : Int) (fOk hOk : Bool)
    (hnode : 9 < node) (hm : fsize % TDB_EXT_SZ = 0)
    (hs : TDB_EXT_SZ ≤ fsize) :
    tdb_get_db tblNameLen pathLen path node = GetDbRes.bug ∧
    (tdb_open tblNameLen pathLen path fsize rec_size node fOk hOk).res =
      GetDbRes.bug := by
  have hdb : tdb_get_db tblNameLen pathLen path node = GetDbRes.bug := by
    unfold tdb_get_db
    rw [if_pos hnode]
  refine ⟨hdb, ?_⟩
  have hcond : ¬ (fsize &&& (TDB_EXT_SZ - 1) ≠ 0 ∨ fsize < TDB_EXT_SZ) := by
    rw [ext_mask_eq_mod]
    push_neg
    exact ⟨hm, hs⟩
  unfold tdb_open
  rw [if_neg hcond, hdb]

/-- Witness for C9: node id 10 hits the BUG_ON with an otherwise valid
path and file size. -/
theorem c9_witness :
    ((9 : Int) < 10) ∧
    tdb_get_db 20 100 ['/', 'b', '.', 't', 'd', 'b'] 10 = GetDbRes.bug ∧
    (tdb_open 20 100 ['/', 'b', '.', 't', 'd', 'b'] TDB_EXT_SZ 64 10
        true true).res = GetDbRes.bug :=
  ⟨by decide,
   (c9_node_digit_bug_on 20 100 ['/', 'b', '.', 't', 'd', 'b'] TDB_EXT_SZ 64 10
      true true (by decide) (by decide) (by decide)).1,
   (c9_node_digit_bug_on 20 100 ['/', 'b', '.', 't', 'd', 'b'] TDB_EXT_SZ 64 10
      true true (by decide) (by decide) (by decide)).2⟩

/-- Counterexample to claim C4 as stated: a NULL data buffer passed to
tdb_entry_create, and an undersized length passed to tdb_entry_alloc,
are not reported as an error return — the BUG_ON assertion fires and the
process aborts. -/
theorem c4_counterexample :
    ¬ (tdb_entry_create dbEmpty 5 none 16 = CResult.null) ∧
    tdb_entry_create dbEmpty 5 none 16 = CResult.bug ∧
    ¬ (tdb_entry_alloc dbEmpty 5 8 = CResult.null) ∧
    tdb_entry_alloc dbEmpty 5 8 = CResult.bug := by
  refine ⟨by decide, by decide, by decide, by decide⟩

/-- Claim C4 (amended): malformed arguments — a null data buffer passed
to entry_create, or a length below TDB_HTRIE_MINDREC passed to
entry_alloc or entry_alloc_unique — trigger BUG_ON assertions (the
process aborts) rather than being reported as a BadInput error; on
well-formed arguments these operations never assert and return either a
record or a NULL error result. -/
theorem c4_bad_input_asserts :
    (∀ (db : DB) (key len : Nat),
      tdb_entry_create db key none len = CResult.bug) ∧
    (∀ (db : DB) (key len : Nat), len < TDB_HTRIE_MINDREC →
      tdb_entry_alloc db key len = CResult.bug) ∧
    (∀ (γ : Type) (db : DB) (key len : Nat) (eq_cb : TdbRec → γ → Bool)
        (c : γ), len < TDB_HTRIE_MINDREC →
      tdb_entry_alloc_unique db key len eq_cb c = CResult.bug) ∧
    (∀ (db : DB) (key : Nat) (d : List Nat) (len : Nat),
      tdb_entry_create db key (some d) len ≠ CResult.bug) ∧
    (∀ (db : DB) (key len : Nat), TDB_HTRIE_MINDREC ≤ len →
      tdb_entry_alloc db key len ≠ CResult.bug) ∧
    (∀ (γ : Type) (db : DB) (key len : Nat) (eq_cb : TdbRec → γ → Bool)
        (c : γ), TDB_HTRIE_MINDREC ≤ len →
      tdb_entry_alloc_unique db key len eq_cb c ≠ CResult.bug) := by
  refine ⟨?_, ?_, ?_, ?_, ?_, ?_⟩
  · intro db key len
    rfl
  · intro db key len h
    unfold tdb_entry_alloc
    rw [if_pos h]
  · intro γ db key len eq_cb c h
    unfold tdb_entry_alloc_unique
    rw [if_pos h]
  · intro db key d len
    unfold tdb_entry_create
    cases hI : @tdb_htrie_insert Unit db key d none () len true <;>
      simp [hI]
  · intro db key len h
    unfold tdb_entry_alloc
    rw [if_neg (by omega)]
    cases hI : @tdb_htrie_insert Unit db key [] none () len false <;>
      simp [hI]
  · intro γ db key len eq_cb c h
    unfold tdb_entry_alloc_unique
    rw [if_neg (by omega)]
    cases hI : tdb_htrie_insert db key [] (some eq_cb) c len false <;>
      simp [hI]

/-- Witness for C4 (amended): length 8 is below the threshold and hits
the assertion; length 256 is well-formed and does not. -/
theorem c4_witness :
    ((8 : Nat) < TDB_HTRIE_MINDREC ∧
      tdb_entry_alloc dbEmpty 5 8 = CResult.bug) ∧
    (TDB_HTRIE_MINDREC ≤ 256 ∧
      tdb_entry_alloc dbEmpty 5 256 ≠ CResult.bug) :=
  ⟨⟨by decide, c4_bad_input_asserts.2.1 dbEmpty 5 8 (by decide)⟩,
   ⟨by decide, c4_bad_input_asserts.2.2.2.2.1 dbEmpty 5 256 (by decide)⟩⟩

/-- Claim C5: a record is visible to lookup iff it is complete and not
tombstoned: the records returned by tdb_entry_alloc and
tdb_entry_alloc_unique are incomplete, incomplete records are never
returned by get, next (the visible chain), or walk, and cannot be
removed without force. -/
theorem c5_incomplete_invisible {γ : Type} :
    (∀ (db : DB) (key len : Nat), TDB_HTRIE_MINDREC ≤ len →
      len ≤ db.freeSpace →
      ∃ db1, tdb_entry_alloc db key len =
          CResult.ok (db1, db.recs.length) ∧
        db1.recs[db.recs.length]? = some (gaNewRec key len) ∧
        (gaNewRec key len).complete = false) ∧
    (∀ (db : DB) (key len : Nat) (eq_cb : TdbRec → γ → Bool) (c : γ),
      TDB_HTRIE_MINDREC ≤ len → len ≤ db.freeSpace →
      ∃ db1, tdb_entry_alloc_unique db key len eq_cb c =
          CResult.ok (db1, db.recs.length) ∧
        db1.recs[db.recs.length]? = some (gaNewRec key len)) ∧
    (∀ (db : DB) (i : Nat) (r : TdbRec), db.recs[i]? = some r →
      r.complete = false →
      (∀ k, (tdb_rec_get db k).2.recId ≠ some i) ∧
      (∀ k, i ∉ tdb_visible_chain db k) ∧
      i ∉ tdb_entry_walk db) ∧
    (∀ (db : DB) (i : Nat) (r : TdbRec) (key : Nat)
        (eq_cb : TdbRec → γ → Bool) (c : γ),
      db.recs[i]? = some r → r.complete = false →
      (tdb_entry_remove db key eq_cb c false).recs[i]? = some r) := by
  refine ⟨?_, ?_, ?_, ?_⟩
  · intro db key len hlen hspace
    refine ⟨_, entry_alloc_ok_eq hlen hspace, ?_, rfl⟩
    exact List.getElem?_concat_length _ _
  · intro db key len eq_cb c hlen hspace
    have hlenm : (tombstoneMatching db.recs key eq_cb c false).length =
        db.recs.length := List.length_map _ _
    refine ⟨{ recs := tombstoneMatching db.recs key eq_cb c false ++
                [gaNewRec key len],
              freeSpace := db.freeSpace - len,
              nextAddr := db.nextAddr }, ?_, ?_⟩
    · unfold tdb_entry_alloc_unique tdb_htrie_insert
      rw [if_neg (by omega)]
      simp only [if_pos hspace]
      rw [hlenm]
      rfl
    · show (tombstoneMatching db.recs key eq_cb c false ++
        [gaNewRec key len])[db.recs.length]? = some (gaNewRec key len)
      rw [← hlenm]
      exact List.getElem?_concat_length _ _
  · intro db i r hr hc
    have hnv : ∀ k, i ∉ tdb_visible_chain db k := by
      intro k hmem
      obtain ⟨r2, hr2, -, hv2⟩ := mem_tdb_visible_chain.mp hmem
      rw [hr] at hr2
      obtain rfl : r = r2 := by injection hr2
      unfold tdb_rec_visible at hv2
      rw [hc] at hv2
      cases hv2
    refine ⟨?_, hnv, ?_⟩
    · intro k
      unfold tdb_rec_get
      by_cases hb : tdb_htrie_lookup db k
      · rw [if_pos hb]
        cases hs : tdb_htrie_bscan_for_rec db k with
        | none => simp
        | some j =>
          have hjmem : j ∈ tdb_visible_chain db k :=
            List.mem_of_mem_head? hs
          simp only [TdbIter.mk.injEq, ne_eq, Option.some.injEq]
          intro hji
          subst hji
          exact hnv k hjmem
      · rw [if_neg hb]
        simp
    · intro hmem
      unfold tdb_entry_walk tdb_htrie_walk at hmem
      rw [List.mem_filter] at hmem
      have hvi := hmem.2
      rw [hr] at hvi
      simp only [tdb_rec_visible, hc, Bool.false_and] at hvi
      cases hvi
  · intro db i r key eq_cb c hr hc
    show (tombstoneMatching db.recs key eq_cb c false)[i]? = some r
    unfold tombstoneMatching
    rw [List.getElem?_map, hr]
    simp [hc]

/-- Witness for C5: in a store holding a visible and an incomplete
record under key 5, allocation succeeds and the incomplete record (id 1)
is invisible to get, the visible chain and walk, and survives a
forceless remove. -/
theorem c5_witness :
    (TDB_HTRIE_MINDREC ≤ 256 ∧ 256 ≤ dbW.freeSpace ∧
      ∃ db1, tdb_entry_alloc dbW 7 256 =
          CResult.ok (db1, dbW.recs.length) ∧
        db1.recs[dbW.recs.length]? = some (gaNewRec 7 256) ∧
        (gaNewRec 7 256).complete = false) ∧
    (dbW.recs[1]? = some recInc ∧ recInc.complete = false ∧
      (∀ k, (tdb_rec_get dbW k).2.recId ≠ some 1) ∧
      (∀ k, 1 ∉ tdb_visible_chain dbW k) ∧
      1 ∉ tdb_entry_walk dbW) :=
  ⟨⟨by decide, by decide,
    (@c5_incomplete_invisible Unit).1 dbW 7 256 (by decide) (by decide)⟩,
   ⟨by decide, by decide,
    ((@c5_incomplete_invisible Unit).2.2.1 dbW 1 recInc (by decide)
      (by decide)).1,
    ((@c5_incomplete_invisible Unit).2.2.1 dbW 1 recInc (by decide)
      (by decide)).2.1,
    ((@c5_incomplete_invisible Unit).2.2.1 dbW 1 recInc (by decide)
      (by decide)).2.2⟩⟩

/-- Claim C6: for every key, tdb_rec_get returns an iterator whose
record pointer is null exactly when no bucket or no matching (complete,
non-tombstoned) record exists, and otherwise points to a matching record
whose refcount has been incremented on behalf of the caller. -/
theorem c6_rec_get_iterator (db : DB) (key : Nat) :
    ((tdb_rec_get db key).2.recId = none ↔
      ¬ ∃ (i : Nat) (r : TdbRec), db.recs[i]? = some r ∧ r.key = key ∧
        tdb_rec_visible r = true) ∧
    (∀ i, (tdb_rec_get db key).2.recId = some i →
      ∃ r, db.recs[i]? = some r ∧ r.key = key ∧ tdb_rec_visible r = true ∧
        (tdb_rec_get db key).1.recs[i]? =
          some { r with refcnt := r.refcnt + 1 }) := by
  have hvis_empty : tdb_visible_chain db key = [] ↔
      ¬ ∃ (i : Nat) (r : TdbRec), db.recs[i]? = some r ∧ r.key = key ∧
        tdb_rec_visible r = true := by
    rw [List.eq_nil_iff_forall_not_mem]
    constructor
    · rintro h ⟨i, r, hr, hk, hv⟩
      exact h i (mem_tdb_visible_chain.mpr ⟨r, hr, hk, hv⟩)
    · intro h i hmem
      obtain ⟨r, hr, hk, hv⟩ := mem_tdb_visible_chain.mp hmem
      exact h ⟨i, r, hr, hk, hv⟩
  unfold tdb_rec_get
  by_cases hb : tdb_htrie_lookup db key
  · rw [if_pos hb]
    cases hs : tdb_htrie_bscan_for_rec db key with
    | none =>
      have hempty : tdb_visible_chain db key = [] := by
        unfold tdb_htrie_bscan_for_rec at hs
        exact List.head?_eq_none_iff.mp hs
      constructor
      · simpa using hvis_empty.mp hempty
      · intro i hi
        simp at hi
    | some j =>
      have hjmem : j ∈ tdb_visible_chain db key := List.mem_of_mem_head? hs
      obtain ⟨r, hr, hk, hv⟩ := mem_tdb_visible_chain.mp hjmem
      constructor
      · simp only [Option.some_ne_none, false_iff, not_not]
        exact ⟨j, r, hr, hk, hv⟩
      · intro i hi
        obtain rfl : j = i := by simpa using hi
        refine ⟨r, hr, hk, hv, ?_⟩
        show (tdb_htrie_get_rec db j).recs[j]? = _
        unfold tdb_htrie_get_rec
        rw [updateRec_getElem_self, hr]
        rfl
  · rw [if_neg hb]
    have hchain : tdb_chain db key = [] := by
      unfold tdb_htrie_lookup at hb
      rw [Bool.not_eq_true] at hb
      simp only [Bool.not_eq_false'] at hb
      exact List.isEmpty_iff.mp hb
    have hempty : tdb_visible_chain db key = [] := by
      unfold tdb_visible_chain
      rw [hchain]
      rfl
    constructor
    · simpa using hvis_empty.mp hempty
    · intro i hi
      simp at hi

/-- Witness for C6: in the two-record store, get on key 5 returns the
visible record 0 with its refcount bumped, and get on key 9 returns a
null iterator. -/
theorem c6_witness :
    ((tdb_rec_get dbW 9).2.recId = none ↔
      ¬ ∃ (i : Nat) (r : TdbRec), dbW.recs[i]? = some r ∧ r.key = 9 ∧
        tdb_rec_visible r = true) ∧
    (∃ r, dbW.recs[0]? = some r ∧ r.key = 5 ∧ tdb_rec_visible r = true ∧
      (tdb_rec_get dbW 5).1.recs[0]? =
        some { r with refcnt := r.refcnt + 1 }) :=
  ⟨(c6_rec_get_iterator dbW 9).1,
   (c6_rec_get_iterator dbW 5).2 0 (by decide)⟩

/-- Claim C1: for every key and get-alloc context, tdb_rec_get_alloc
looks up the key and, if some record in the (visible) collision chain
satisfies the context's equality callback, returns that record with its
refcount incremented and is_new set to false; otherwise, provided the
precreate callback does not veto and allocation succeeds, it allocates a
new record of the requested length, invokes the initializer callback on
it, marks it complete, and returns it with is_new set to true. -/
theorem c1_rec_get_alloc_get_or_create {γ : Type} (db : DB) (key : Nat)
    (ctx0 : TdbGetAllocCtx γ)
    (hlen : TDB_HTRIE_MINDREC ≤ ctx0.len)
    (hspace : ctx0.len ≤ db.freeSpace) :
    ((∃ (i : Nat) (r : TdbRec), db.recs[i]? = some r ∧ r.key = key ∧
        tdb_rec_visible r = true ∧ ctx0.eq_rec r ctx0.ctx = true) →
      ∃ (i : Nat) (r : TdbRec), db.recs[i]? = some r ∧ r.key = key ∧
        tdb_rec_visible r = true ∧ ctx0.eq_rec r ctx0.ctx = true ∧
        (tdb_rec_get_alloc db key ctx0).res = CResult.ok i ∧
        (tdb_rec_get_alloc db key ctx0).ctx.is_new = false ∧
        (tdb_rec_get_alloc db key ctx0).db.recs[i]? =
          some { r with refcnt := r.refcnt + 1 }) ∧
    ((∀ (i : Nat) (r : TdbRec), db.recs[i]? = some r → r.key = key →
        tdb_rec_visible r = true → ctx0.eq_rec r ctx0.ctx = false) →
      gaVeto ctx0 = false →
      (tdb_rec_get_alloc db key ctx0).res = CResult.ok db.recs.length ∧
      (tdb_rec_get_alloc db key ctx0).ctx.is_new = true ∧
      (tdb_rec_get_alloc db key ctx0).db.recs[db.recs.length]? =
        some (gaFinalRec ctx0 key) ∧
      (gaFinalRec ctx0 key).complete = true ∧
      (gaFinalRec ctx0 key).key = key ∧
      (gaFinalRec ctx0 key).len = ctx0.len ∧
      (gaFinalRec ctx0 key).payload =
        ctx0.init_rec (gaNewRec key ctx0.len) ctx0.ctx ∧
      (tdb_rec_get_alloc db key ctx0).db.freeSpace =
        db.freeSpace - ctx0.len ∧
      db.recs.length ∈ tdb_visible_chain (tdb_rec_get_alloc db key ctx0).db
        key) := by
  constructor
  · rintro ⟨i0, r0, hr0, hk0, hv0, he0⟩
    cases hfind : gaLoopFind db ctx0.eq_rec ctx0.ctx
        (tdb_visible_chain db key) with
    | none =>
      exfalso
      have hfail := gaLoopFind_eq_none_iff.mp hfind i0
        (mem_tdb_visible_chain.mpr ⟨r0, hr0, hk0, hv0⟩) r0 hr0
      rw [he0] at hfail
      cases hfail
    | some j =>
      obtain ⟨hjmem, rj, hrj, hej⟩ := gaLoopFind_eq_some hfind
      obtain ⟨rj2, hrj2, hkj, hvj⟩ := mem_tdb_visible_chain.mp hjmem
      rw [hrj] at hrj2
      obtain rfl : rj = rj2 := by injection hrj2
      refine ⟨j, rj, hrj, hkj, hvj, hej, ?_, ?_, ?_⟩
      · rw [ga_found_eq hfind]
      · rw [ga_found_eq hfind]
      · rw [ga_found_eq hfind]
        show (tdb_htrie_get_rec db j).recs[j]? = _
        unfold tdb_htrie_get_rec
        rw [updateRec_getElem_self, hrj]
        rfl
  · intro hnone hveto
    have hfind : gaLoopFind db ctx0.eq_rec ctx0.ctx
        (tdb_visible_chain db key) = none := by
      apply gaLoopFind_eq_none_iff.mpr
      intro i hi r hr
      obtain ⟨r2, hr2, hk2, hv2⟩ := mem_tdb_visible_chain.mp hi
      rw [hr] at hr2
      obtain rfl : r = r2 := by injection hr2
      exact hnone i r hr hk2 hv2
    rw [ga_fresh_eq hfind hveto hlen hspace]
    refine ⟨rfl, rfl, ?_, rfl, rfl, rfl, rfl, rfl, ?_⟩
    · exact List.getElem?_concat_length _ _
    · have happ := @tdb_visible_chain_append db (gaFreshDB db key ctx0)
        (gaFinalRec ctx0 key) key rfl rfl rfl
      rw [happ]
      exact List.mem_append_right _ (List.mem_singleton.mpr rfl)

/-- Witness for C1: in the two-record store the matching visible record
under key 5 is found and returned with is_new cleared. -/
theorem c1_witness :
    TDB_HTRIE_MINDREC ≤ ctxMatch.len ∧ ctxMatch.len ≤ dbW.freeSpace ∧
    (∃ (i : Nat) (r : TdbRec), dbW.recs[i]? = some r ∧ r.key = 5 ∧
      tdb_rec_visible r = true ∧ ctxMatch.eq_rec r ctxMatch.ctx = true) ∧
    (∃ (i : Nat) (r : TdbRec), dbW.recs[i]? = some r ∧ r.key = 5 ∧
      tdb_rec_visible r = true ∧ ctxMatch.eq_rec r ctxMatch.ctx = true ∧
      (tdb_rec_get_alloc dbW 5 ctxMatch).res = CResult.ok i ∧
      (tdb_rec_get_alloc dbW 5 ctxMatch).ctx.is_new = false ∧
      (tdb_rec_get_alloc dbW 5 ctxMatch).db.recs[i]? =
        some { r with refcnt := r.refcnt + 1 }) :=
  ⟨by decide, by decide,
   ⟨0, recW, by decide, by decide, by decide, by decide⟩,
   (c1_rec_get_alloc_get_or_create dbW 5 ctxMatch (by decide) (by decide)).1
     ⟨0, recW, by decide, by decide, by decide, by decide⟩⟩

/-- Claim C10: when tdb_rec_get_alloc finds no matching record and then
fails to allocate (returns NULL), it leaves ctx->is_new set to true, so
a true is_new flag does not imply a record was created; is_new is false
on the precreate-veto path and on the found-existing path. -/
theorem c10_is_new_flag {γ : Type} (db : DB) (key : Nat)
    (ctx0 : TdbGetAllocCtx γ) (hlen : TDB_HTRIE_MINDREC ≤ ctx0.len) :
    ((∀ (i : Nat) (r : TdbRec), db.recs[i]? = some r → r.key = key →
        tdb_rec_visible r = true → ctx0.eq_rec r ctx0.ctx = false) →
      gaVeto ctx0 = false → db.freeSpace < ctx0.len →
      (tdb_rec_get_alloc db key ctx0).res = CResult.null ∧
      (tdb_rec_get_alloc db key ctx0).ctx.is_new = true ∧
      (tdb_rec_get_alloc db key ctx0).db = db) ∧
    ((∀ (i : Nat) (r : TdbRec), db.recs[i]? = some r → r.key = key →
        tdb_rec_visible r = true → ctx0.eq_rec r ctx0.ctx = false) →
      gaVeto ctx0 = true →
      (tdb_rec_get_alloc db key ctx0).res = CResult.null ∧
      (tdb_rec_get_alloc db key ctx0).ctx.is_new = false) ∧
    ((∃ (i : Nat) (r : TdbRec), db.recs[i]? = some r ∧ r.key = key ∧
        tdb_rec_visible r = true ∧ ctx0.eq_rec r ctx0.ctx = true) →
      (tdb_rec_get_alloc db key ctx0).ctx.is_new = false) := by
  have mkfind : (∀ (i : Nat) (r : TdbRec), db.recs[i]? = some r →
      r.key = key → tdb_rec_visible r = true →
      ctx0.eq_rec r ctx0.ctx = false) →
      gaLoopFind db ctx0.eq_rec ctx0.ctx (tdb_visible_chain db key) =
        none := by
    intro hnone
    apply gaLoopFind_eq_none_iff.mpr
    intro i hi r hr
    obtain ⟨r2, hr2, hk2, hv2⟩ := mem_tdb_visible_chain.mp hi
    rw [hr] at hr2
    obtain rfl : r = r2 := by injection hr2
    exact hnone i r hr hk2 hv2
  refine ⟨?_, ?_, ?_⟩
  · intro hnone hveto hfull
    rw [ga_alloc_fail_eq (mkfind hnone) hveto hlen hfull]
    exact ⟨rfl, rfl, rfl⟩
  · intro hnone hveto
    rw [ga_veto_eq (mkfind hnone) hveto]
    exact ⟨rfl, rfl⟩
  · rintro ⟨i0, r0, hr0, hk0, hv0, he0⟩
    cases hfind : gaLoopFind db ctx0.eq_rec ctx0.ctx
        (tdb_visible_chain db key) with
    | none =>
      exfalso
      have hfail := gaLoopFind_eq_none_iff.mp hfind i0
        (mem_tdb_visible_chain.mpr ⟨r0, hr0, hk0, hv0⟩) r0 hr0
      rw [he0] at hfail
      cases hfail
    | some j =>
      rw [ga_found_eq hfind]

/-- Witness for C10: on the exhausted store the allocation fails and the
is_new flag is left set while NULL is returned. -/
theorem c10_witness :
    TDB_HTRIE_MINDREC ≤ ctxNoMatch.len ∧ gaVeto ctxNoMatch = false ∧
    dbFull.freeSpace < ctxNoMatch.len ∧
    (tdb_rec_get_alloc dbFull 7 ctxNoMatch).res = CResult.null ∧
    (tdb_rec_get_alloc dbFull 7 ctxNoMatch).ctx.is_new = true :=
  ⟨by decide, by decide, by decide,
   ((c10_is_new_flag dbFull 7 ctxNoMatch (by decide)).1
      (fun i r _ _ _ => rfl) (by decide) (by decide)).1,
   ((c10_is_new_flag dbFull 7 ctxNoMatch (by decide)).1
      (fun i r _ _ _ => rfl) (by decide) (by decide)).2.1⟩

/-- tdb_entry_alloc never asserts when the length is above the
threshold. -/
theorem entry_alloc_ne_bug {db : DB} {key len : Nat}
    (hlen : TDB_HTRIE_MINDREC ≤ len) :
    tdb_entry_alloc db key len ≠ CResult.bug := by
  unfold tdb_entry_alloc
  rw [if_neg (by omega)]
  cases hI : @tdb_htrie_insert Unit db key [] none () len false <;>
    simp [hI]

/-- Counterexample to claim C2 as stated: the critical section of
tdb_rec_get_alloc is not the bucket lock of the key — the lock trace
holds no bucket-lock acquisition at all; it is the per-table ga_lock. -/
theorem c2_counterexample :
    (¬ ∃ b, (tdb_rec_get_alloc dbEmpty 42 ctxNoMatch).locks =
      [LockEv.acquire (LockId.bucket b),
       LockEv.release (LockId.bucket b)]) ∧
    (tdb_rec_get_alloc dbEmpty 42 ctxNoMatch).locks =
      [LockEv.acquire LockId.ga, LockEv.release LockId.ga] := by
  constructor
  · rintro ⟨b, hb⟩
    have hga : (tdb_rec_get_alloc dbEmpty 42 ctxNoMatch).locks =
        [LockEv.acquire LockId.ga, LockEv.release LockId.ga] := by decide
    rw [hga] at hb
    simp at hb
  · decide

/-- Claim C2 (amended): tdb_rec_get_alloc executes the whole compound
inside a critical section of the single per-table spinlock ga_lock —
acquired first and released last on every non-asserting path, and never
a per-bucket lock — so concurrent callers on the same table (hence on
the same key) are serialized, and a freshly inserted record is seen by
the next same-key call rather than lost. -/
theorem c2_table_lock_serializes {γ : Type} (db : DB) (key : Nat)
    (ctx0 : TdbGetAllocCtx γ) (hlen : TDB_HTRIE_MINDREC ≤ ctx0.len) :
    (tdb_rec_get_alloc db key ctx0).locks =
      [LockEv.acquire LockId.ga, LockEv.release LockId.ga] ∧
    (∀ b, LockEv.acquire (LockId.bucket b) ∉
      (tdb_rec_get_alloc db key ctx0).locks) ∧
    (∀ i : Nat,
      (tdb_rec_get_alloc db key ctx0).res = CResult.ok i →
      (tdb_rec_get_alloc db key ctx0).ctx.is_new = true →
      ctx0.eq_rec (gaFinalRec ctx0 key) ctx0.ctx = true →
      (tdb_rec_get_alloc (tdb_rec_get_alloc db key ctx0).db key ctx0).res =
        CResult.ok i) := by
  have hlocks : (tdb_rec_get_alloc db key ctx0).locks =
      [LockEv.acquire LockId.ga, LockEv.release LockId.ga] := by
    unfold tdb_rec_get_alloc
    cases hfind : gaLoopFind db ctx0.eq_rec ctx0.ctx
        (tdb_visible_chain db key) with
    | some i => rfl
    | none =>
      by_cases hveto : gaVeto ctx0 = true
      · rw [if_pos hveto]
      · rw [if_neg hveto]
        cases halloc : tdb_entry_alloc db key ctx0.len with
        | bug => exact absurd halloc (entry_alloc_ne_bug hlen)
        | null => rfl
        | ok p =>
          cases p with
          | mk db1 i => rfl
  refine ⟨hlocks, ?_, ?_⟩
  · intro b hmem
    rw [hlocks] at hmem
    simp at hmem
  · intro i hres hnew heq
    cases hfind : gaLoopFind db ctx0.eq_rec ctx0.ctx
        (tdb_visible_chain db key) with
    | some j =>
      rw [ga_found_eq hfind] at hnew
      cases hnew
    | none =>
      by_cases hveto : gaVeto ctx0 = true
      · rw [ga_veto_eq hfind hveto] at hres
        cases hres
      · have hveto2 : gaVeto ctx0 = false := by
          rw [Bool.not_eq_true] at hveto
          exact hveto
        by_cases hsp : ctx0.len ≤ db.freeSpace
        · rw [ga_fresh_eq hfind hveto2 hlen hsp] at hres ⊢
          obtain rfl : db.recs.length = i := by simpa using hres
          have hchain2 : tdb_visible_chain (gaFreshDB db key ctx0) key =
              tdb_visible_chain db key ++ [db.recs.length] :=
            tdb_visible_chain_append rfl rfl rfl
          have hsame : ∀ j ∈ tdb_visible_chain db key,
              (gaFreshDB db key ctx0).recs[j]? = db.recs[j]? := by
            intro j hj
            obtain ⟨rj, hrj, -, -⟩ := mem_tdb_visible_chain.mp hj
            have hjlt : j < db.recs.length :=
              (List.getElem?_eq_some.mp hrj).1
            show (db.recs ++ [gaFinalRec ctx0 key])[j]? = db.recs[j]?
            rw [List.getElem?_append_left hjlt]
          have hg : (gaFreshDB db key ctx0).recs[db.recs.length]? =
              some (gaFinalRec ctx0 key) :=
            List.getElem?_concat_length _ _
          have hfind2 : gaLoopFind (gaFreshDB db key ctx0) ctx0.eq_rec
              ctx0.ctx (tdb_visible_chain (gaFreshDB db key ctx0) key) =
              some db.recs.length := by
            rw [hchain2, gaLoopFind_append, gaLoopFind_congr hsame, hfind]
            simp only [Option.none_or, gaLoopFind_cons, hg]
            rw [if_pos heq]
          show (tdb_rec_get_alloc (gaFreshDB db key ctx0) key ctx0).res =
            CResult.ok db.recs.length
          rw [ga_found_eq hfind2]
        · rw [ga_alloc_fail_eq hfind hveto2 hlen (by omega)] at hres
          simp at hres

/-- Witness for C2 (amended): on the empty store with the rejecting
context the compound acquires and releases only the per-table ga_lock. -/
theorem c2_witness :
    TDB_HTRIE_MINDREC ≤ ctxNoMatch.len ∧
    (tdb_rec_get_alloc dbEmpty 42 ctxNoMatch).locks =
      [LockEv.acquire LockId.ga, LockEv.release LockId.ga] :=
  ⟨by decide,
   (c2_table_lock_serializes dbEmpty 42 ctxNoMatch (by decide)).1⟩

/-- strrchr finds no '/' iff the path contains none. -/
theorem lastSlash_eq_none_iff {s : List Char} :
    lastSlash s = none ↔ '/' ∉ s := by
  unfold lastSlash
  rw [List.getLast?_eq_none_iff, List.filter_eq_nil_iff]
  constructor
  · intro h hmem
    obtain ⟨i, hi⟩ := List.mem_iff_getElem?.mp hmem
    have hilt : i < s.length := (List.getElem?_eq_some.mp hi).1
    have hcontra := h i (List.mem_range.mpr hilt)
    rw [hi] at hcontra
    simp at hcontra
  · intro h i hik
    rw [List.mem_range] at hik
    cases hc : s[i]? with
    | none => simp
    | some ch =>
      simp only [hc, beq_iff_eq, Option.some.injEq]
      intro hch
      subst hch
      obtain ⟨hlt2, heq2⟩ := List.getElem?_eq_some.mp hc
      exact h (heq2 ▸ List.getElem_mem hlt2)

/-- A successful strrchr returns an in-range index holding '/'. -/
theorem lastSlash_eq_some_spec {s : List Char} {i : Nat}
    (h : lastSlash s = some i) : i < s.length ∧ s[i]? = some '/' := by
  unfold lastSlash at h
  have hmem := List.mem_of_getLast?_eq_some h
  rw [List.mem_filter, List.mem_range] at hmem
  refine ⟨hmem.1, ?_⟩
  have hbeq := hmem.2
  simpa using hbeq

/-- Under the suffix check the last '/' sits strictly before the ".tdb"
tail, so the computed name length is never negative. -/
theorem slash_before_suffix {path : List Char} {i : Nat}
    (hsuf : path.drop (path.length - 4) = TDB_SUFFIX)
    (hs : path[i]? = some '/') : i + 4 < path.length := by
  have hilt : i < path.length := (List.getElem?_eq_some.mp hs).1
  by_contra hge
  push_neg at hge
  have h4 : 4 ≤ path.length := by
    have hlen := congrArg List.length hsuf
    rw [List.length_drop] at hlen
    simp only [TDB_SUFFIX, List.length_cons, List.length_nil] at hlen
    omega
  have hset : TDB_SUFFIX[i - (path.length - 4)]? = some '/' := by
    rw [← hsuf, List.getElem?_drop]
    have hidx : path.length - 4 + (i - (path.length - 4)) = i := by omega
    rw [hidx]
    exact hs
  have hj4 : i - (path.length - 4) < 4 := by omega
  have hforall : ∀ j < 4, TDB_SUFFIX[j]? ≠ some '/' := by decide
  exact hforall (i - (path.length - 4)) hj4 hset

/-- The %d rendering of a single-digit node id is one character. -/
theorem decimalDigits_single {node : Int} (h0 : 0 ≤ node) (h9 : node ≤ 9) :
    (decimalDigits node).length = 1 := by
  unfold decimalDigits
  rw [if_neg (by omega)]
  have hall : ∀ m < 10, (Nat.toDigits 10 m).length = 1 := by decide
  exact hall node.toNat (by omega)

/-- Counterexample to claim C7 as stated: the relative path "a/b.tdb"
does not begin with '/' yet tdb_get_db accepts it — the code only checks
that some '/' exists (strrchr), not that the path is absolute. -/
theorem c7_counterexample :
    ['a', '/', 'b', '.', 't', 'd', 'b'][0]? ≠ some '/' ∧
    tdb_get_db 20 100 ['a', '/', 'b', '.', 't', 'd', 'b'] 0 ≠
      GetDbRes.null ∧
    tdb_get_db 20 100 ['a', '/', 'b', '.', 't', 'd', 'b'] 0 =
      GetDbRes.ok ['b', '0', '.', 't', 'd', 'b']
        ['a', '/', 'b', '0', '.', 't', 'd', 'b'] := by
  refine ⟨by decide, by decide, by decide⟩

/-- Claim C7 (amended): tdb_open accepts only paths that contain a '/'
(the check intends absolute paths but only requires some slash), whose
last four characters are the table suffix ".tdb", and whose table name
fits the name buffer together with the node digit and suffix, returning
a null handle otherwise; on success the table's file name is the table
name followed by the node id and the suffix, <name><node_id>.tdb. -/
theorem c7_open_path_validation (tblNameLen pathLen : Nat)
    (path : List Char) (node : Int) (hn0 : 0 ≤ node) (hn9 : node ≤ 9)
    (hplen : path.length + 2 ≤ pathLen) :
    (path.drop (path.length - 4) ≠ TDB_SUFFIX →
      tdb_get_db tblNameLen pathLen path node = GetDbRes.null) ∧
    ('/' ∉ path →
      tdb_get_db tblNameLen pathLen path node = GetDbRes.null) ∧
    (∀ s, lastSlash path = some s →
      tblNameLen ≤ (path.length - s - 5) + 5 →
      tdb_get_db tblNameLen pathLen path node = GetDbRes.null) ∧
    (∀ tn dp, tdb_get_db tblNameLen pathLen path node = GetDbRes.ok tn dp →
      '/' ∈ path ∧ path.drop (path.length - 4) = TDB_SUFFIX ∧
      ∃ s, lastSlash path = some s ∧
        (path.length - s - 5) + 5 < tblNameLen ∧
        (decimalDigits node).length = 1 ∧
        tn = (path.drop (s + 1)).take (path.length - s - 5) ++
          decimalDigits node ++ TDB_SUFFIX ∧
        dp = path.take (path.length - 4) ++ decimalDigits node ++
          TDB_SUFFIX) := by
  have hbug : ¬ (9 : Int) < node := by omega
  refine ⟨?_, ?_, ?_, ?_⟩
  · intro hsuf
    unfold tdb_get_db
    rw [if_neg hbug, if_pos hsuf]
  · intro hslash
    unfold tdb_get_db
    rw [if_neg hbug]
    by_cases hsuf : path.drop (path.length - 4) ≠ TDB_SUFFIX
    · rw [if_pos hsuf]
    · rw [if_neg hsuf, lastSlash_eq_none_iff.mpr hslash]
  · intro s hs hlong
    unfold tdb_get_db
    rw [if_neg hbug]
    by_cases hsuf : path.drop (path.length - 4) ≠ TDB_SUFFIX
    · rw [if_pos hsuf]
    · rw [if_neg hsuf]
      simp only [hs]
      obtain ⟨hslt, hschar⟩ := lastSlash_eq_some_spec hs
      have hlt4 : s + 4 < path.length :=
        slash_before_suffix (not_not.mp hsuf) hschar
      rw [if_neg (by omega : ¬ (path.length : Int) - s - 5 < 0)]
      rw [if_pos (by omega :
        tblNameLen ≤ ((path.length : Int) - s - 5).toNat + 5)]
  · intro tn dp h
    unfold tdb_get_db at h
    rw [if_neg hbug] at h
    by_cases hsuf : path.drop (path.length - 4) ≠ TDB_SUFFIX
    · rw [if_pos hsuf] at h
      cases h
    · rw [if_neg hsuf] at h
      cases hs : lastSlash path with
      | none =>
        rw [hs] at h
        cases h
      | some s =>
        simp only [hs] at h
        obtain ⟨hslt, hschar⟩ := lastSlash_eq_some_spec hs
        have hlt4 : s + 4 < path.length :=
          slash_before_suffix (not_not.mp hsuf) hschar
        rw [if_neg (by omega : ¬ (path.length : Int) - s - 5 < 0)] at h
        by_cases hlong : tblNameLen ≤
            ((path.length : Int) - s - 5).toNat + 5
        · rw [if_pos hlong] at h
          cases h
        · rw [if_neg hlong] at h
          have htolen : ((path.length : Int) - s - 5).toNat =
              path.length - s - 5 := by omega
          have hfit : (path.length - s - 5) + 5 < tblNameLen := by omega
          have hdig : (decimalDigits node).length = 1 :=
            decimalDigits_single hn0 hn9
          have htn_len : ((path.drop (s + 1)).take
              ((path.length : Int) - s - 5).toNat ++
              decimalDigits node ++ TDB_SUFFIX).length ≤ tblNameLen - 1 := by
            rw [List.length_append, List.length_append, hdig]
            have htake := List.length_take_le
              (((path.length : Int) - s - 5).toNat) (path.drop (s + 1))
            simp only [TDB_SUFFIX, List.length_cons, List.length_nil]
            omega
          have hdp_len : (path.take (path.length - 4) ++
              decimalDigits node ++ TDB_SUFFIX).length ≤ pathLen - 1 := by
            rw [List.length_append, List.length_append, hdig]
            have htake := List.length_take_le (path.length - 4) path
            simp only [TDB_SUFFIX, List.length_cons, List.length_nil]
            omega
          rw [List.take_of_length_le htn_len,
            List.take_of_length_le hdp_len] at h
          obtain ⟨heq1, heq2⟩ : (((path.drop (s + 1)).take
              ((path.length : Int) - s - 5).toNat ++
              decimalDigits node ++ TDB_SUFFIX) = tn) ∧
              ((path.take (path.length - 4) ++ decimalDigits node ++
                TDB_SUFFIX) = dp) := by
            cases h
            exact ⟨rfl, rfl⟩
          refine ⟨?_, not_not.mp hsuf, s, rfl, hfit, hdig, ?_, ?_⟩
          · obtain ⟨hlt2, heq3⟩ := List.getElem?_eq_some.mp hschar
            exact heq3 ▸ List.getElem_mem hlt2
          · rw [← heq1, htolen]
          · rw [← heq2]

/-- Witness for C7 (amended): the absolute path "/b.tdb" with node 3 is
accepted and yields the file name "b3.tdb". -/
theorem c7_witness :
    (0 : Int) ≤ 3 ∧ (3 : Int) ≤ 9 ∧
    ['/', 'b', '.', 't', 'd', 'b'].length + 2 ≤ 100 ∧
    tdb_get_db 20 100 ['/', 'b', '.', 't', 'd', 'b'] 3 =
      GetDbRes.ok ['b', '3', '.', 't', 'd', 'b']
        ['/', 'b', '3', '.', 't', 'd', 'b'] ∧
    ('/' ∈ ['/', 'b', '.', 't', 'd', 'b'] ∧
     ['/', 'b', '.', 't', 'd', 'b'].drop
       (['/', 'b', '.', 't', 'd', 'b'].length - 4) = TDB_SUFFIX ∧
     ∃ s, lastSlash ['/', 'b', '.', 't', 'd', 'b'] = some s ∧
       (['/', 'b', '.', 't', 'd', 'b'].length - s - 5) + 5 < 20 ∧
       (decimalDigits 3).length = 1 ∧
       ['b', '3', '.', 't', 'd', 'b'] =
         (['/', 'b', '.', 't', 'd', 'b'].drop (s + 1)).take
           (['/', 'b', '.', 't', 'd', 'b'].length - s - 5) ++
           decimalDigits 3 ++ TDB_SUFFIX ∧
       ['/', 'b', '3', '.', 't', 'd', 'b'] =
         ['/', 'b', '.', 't', 'd', 'b'].take
           (['/', 'b', '.', 't', 'd', 'b'].length - 4) ++
           decimalDigits 3 ++ TDB_SUFFIX) :=
  ⟨by decide, by decide, by decide, by decide,
   (c7_open_path_validation 20 100 ['/', 'b', '.', 't', 'd', 'b'] 3
      (by decide) (by decide) (by decide)).2.2.2
     ['b', '3', '.', 't', 'd', 'b'] ['/', 'b', '3', '.', 't', 'd', 'b']
     (by decide)⟩
